import Mathlib

/-!
Verification of the Range Resolution & Mutation-Request Engine of the
google-docs-mcp server (`src/googleDocsApiHelpers.ts`, `src/types.ts`,
`src/tools/TableTools.ts`).

Shallow embedding conventions:
* JS strings are modelled as `List Char` (JS string indexing is
  character-based, which `List Char` mirrors directly).
* Fields that may be `undefined` in a fetched document are `Option`s.
* `throw new UserError(...)` is modelled as `Except.error`; a returned
  `null` is `Option.none`.
* The network boundary (`docs.documents.get` / `docs.documents.batchUpdate`)
  is the edge of the model: functions take the fetched document body as an
  argument and return the compiled request list / submission action instead
  of performing I/O.
-/

/-- A paragraph element of a fetched document body, as consumed by
`findTextRange` (`googleDocsApiHelpers.ts:74-85`): it reads
`pe.startIndex`, `pe.endIndex` and `pe.textRun.content`, each of which can
be absent. -/
structure ParagraphElement where
  startIndex : Option Nat
  endIndex : Option Nat
  textRun : Option (List Char)
deriving DecidableEq

mutual
/-- A structural element of the fetched body. The source inspects the
optional `paragraph` and `table` fields by duck typing
(`element.paragraph?.elements`, `element.table.tableRows`), so both are
kept optional and independent. `element.paragraph` without `elements` and
`element.table` without `tableRows` behave exactly like `none` / `some []`
respectively in every consumer (`forEach` over `[]` does nothing), so the
inner lists are stored directly. -/
inductive StructuralElement where
  | mk (startIndex endIndex : Option Nat)
       (paragraph : Option (List ParagraphElement))
       (table : Option (List TableRow)) : StructuralElement
/-- A table row; the source only ever reads `row.tableCells` (guarded by a
truthiness check that `forEach` over `[]` makes equivalent to defaulting to
the empty list). -/
inductive TableRow where
  | mk (tableCells : List TableCell) : TableRow
/-- A table cell: `cell.startIndex`, `cell.endIndex` (possibly absent) and
its recursive `cell.content` element list. -/
inductive TableCell where
  | mk (startIndex endIndex : Option Nat)
       (content : List StructuralElement) : TableCell
end

def TableRow.tableCells : TableRow → List TableCell
  | .mk cs => cs

def TableCell.startIndex : TableCell → Option Nat
  | .mk s _ _ => s

def TableCell.endIndex : TableCell → Option Nat
  | .mk _ e _ => e

def TableCell.content : TableCell → List StructuralElement
  | .mk _ _ c => c

/-- One text segment collected by `findTextRange`
(`googleDocsApiHelpers.ts:68`): the run's text together with its absolute
start/end indices. -/
structure Seg where
  text : List Char
  startIndex : Nat
  endIndex : Nat
deriving DecidableEq

mutual
/-- `collectTextFromContent` (`googleDocsApiHelpers.ts:71-103`): walks a
content list accumulating `fullText` (first component) and the pushed
`segments` (second component) in traversal order. -/
def collectContent : List StructuralElement → List Char × List Seg
  | [] => ([], [])
  | e :: rest =>
    let a := collectElement e
    let b := collectContent rest
    (a.1 ++ b.1, a.2 ++ b.2)

/-- One iteration of the `content.forEach` body: the paragraph branch
(`lines 74-86`) contributes its text runs, then the table branch
(`lines 89-99`) recurses into every cell of every row. -/
def collectElement : StructuralElement → List Char × List Seg
  | .mk _ _ para tbl =>
    let fromPara : List Char × List Seg :=
      match para with
      | none => ([], [])
      | some pes => collectParaElems pes
    let fromTable : List Char × List Seg :=
      match tbl with
      | none => ([], [])
      | some rows => collectRows rows
    (fromPara.1 ++ fromTable.1, fromPara.2 ++ fromTable.2)

/-- The `element.paragraph.elements.forEach` body (`lines 75-85`): a
segment is pushed exactly when `pe.textRun.content` is truthy (non-empty)
and both `pe.startIndex` and `pe.endIndex` are defined; `fullText` receives
the same content in the same step. -/
def collectParaElems : List ParagraphElement → List Char × List Seg
  | [] => ([], [])
  | pe :: rest =>
    let b := collectParaElems rest
    match pe.textRun, pe.startIndex, pe.endIndex with
    | some c, some s, some e =>
      if c ≠ [] then (c ++ b.1, ⟨c, s, e⟩ :: b.2) else b
    | _, _, _ => b

/-- The `element.table.tableRows.forEach` body (`lines 90-98`). -/
def collectRows : List TableRow → List Char × List Seg
  | [] => ([], [])
  | .mk cells :: rest =>
    let a := collectCells cells
    let b := collectRows rest
    (a.1 ++ b.1, a.2 ++ b.2)

/-- The `row.tableCells.forEach` body (`lines 92-97`): recurses into
`cell.content`. -/
def collectCells : List TableCell → List Char × List Seg
  | [] => ([], [])
  | .mk _ _ content :: rest =>
    let a := collectContent content
    let b := collectCells rest
    (a.1 ++ b.1, a.2 ++ b.2)
end

/-- Stable insertion of a segment into a list sorted by `startIndex`;
together with `sortSegs` this models `segments.sort((a, b) => a.start -
b.start)` (`googleDocsApiHelpers.ts:108`): ECMAScript `Array.prototype.sort`
is specified to produce the stable sorted order, which insertion sort
realises. -/
def insertByStart (a : Seg) : List Seg → List Seg
  | [] => [a]
  | b :: rest =>
    if b.startIndex < a.startIndex then b :: insertByStart a rest else a :: b :: rest

/-- Stable sort of the collected segments by `startIndex`
(`googleDocsApiHelpers.ts:108`). -/
def sortSegs : List Seg → List Seg
  | [] => []
  | a :: rest => insertByStart a (sortSegs rest)

/-- The reconstructed full text of a fetched body (`fullText` after
`collectTextFromContent` ran over `res.data.body.content`). -/
def docFullText (body : List StructuralElement) : List Char :=
  (collectContent body).1

/-- The segment list of a fetched body as used by the resolver: collected
in traversal order, then sorted by `startIndex`
(`googleDocsApiHelpers.ts:105-108`). -/
def docSegments (body : List StructuralElement) : List Seg :=
  sortSegs (collectContent body).2

/-- Whether `needle` occurs in `hay` at character position `i`
(the match predicate underlying `String.prototype.indexOf`). -/
def matchAt (hay needle : List Char) (i : Nat) : Bool :=
  decide (i + needle.length ≤ hay.length) && ((hay.drop i).take needle.length == needle)

/-- JavaScript `hay.indexOf(needle, pos)` on character lists: the position
argument is clamped to `[0, hay.length]` and the smallest matching position
at or after it is returned (`none` models the `-1` result). For the empty
needle this returns `min pos hay.length`, exactly as in ECMAScript. -/
def jsIndexOf (hay needle : List Char) (pos : Nat) : Option Nat :=
  (List.range (hay.length + 1)).find?
    (fun i => decide (min pos hay.length ≤ i) && matchAt hay needle i)

/-- A resolved absolute range (the `{ startIndex, endIndex }` objects the
helpers return). -/
structure DocRange where
  startIndex : Nat
  endIndex : Nat
deriving DecidableEq

/-- The segment scan of `findTextRange` (`googleDocsApiHelpers.ts:135-153`)
with its running state: `currentPos` is `currentPosInFullText` and
`startAcc` holds the mapped `startIndex` once found (`-1` is `none`).
The scan breaks as soon as the hit's end offset maps into a segment; if the
start offset has not been mapped by then, or the list is exhausted, the
mapping fails (`none`), mirroring the `startIndex === -1 || endIndex === -1`
check at line 155. -/
def nextStartAcc (tS : Nat) (seg : Seg) (currentPos : Nat) (startAcc : Option Nat) : Option Nat :=
  if startAcc = none ∧ currentPos ≤ tS ∧ tS < currentPos + seg.text.length
  then some (seg.startIndex + (tS - currentPos)) else startAcc

/-- The loop over segments: at each segment the start-offset update of
`nextStartAcc` happens first (line 141-144), then the end-offset test
(line 146-150) either breaks — producing the mapped range, or the failure
when the start offset was never mapped — or the scan moves past the
segment. -/
def mapHitGo (tS tE : Nat) : List Seg → Nat → Option Nat → Option DocRange
  | [], _, _ => none
  | seg :: rest, currentPos, startAcc =>
    if currentPos < tE ∧ tE ≤ currentPos + seg.text.length then
      match nextStartAcc tS seg currentPos startAcc with
      | some s => some ⟨s, seg.startIndex + (tE - currentPos)⟩
      | none => none
    else
      mapHitGo tS tE rest (currentPos + seg.text.length)
        (nextStartAcc tS seg currentPos startAcc)

/-- Mapping of a hit `[tS, tE)` in the reconstructed text to absolute
document indices (`googleDocsApiHelpers.ts:129-163`). -/
def mapHit (segments : List Seg) (tS tE : Nat) : Option DocRange :=
  mapHitGo tS tE segments 0 none

/-- The `while (foundCount < instance)` search loop of `findTextRange`
(`googleDocsApiHelpers.ts:118-171`), with explicit state `foundCount` and
`searchStartIndex`. `fuel` bounds the number of iterations; the outer
`Option` is `none` exactly when the fuel runs out (the loop would still be
running), `some none` is the source's `return null`, and `some (some r)`
is a successfully mapped range. On a mapping failure the loop retries from
`currentIndex + 1` with `foundCount` decremented (`lines 155-163`). -/
def searchLoop (fullText : List Char) (segments : List Seg) (textToFind : List Char)
    (matchInstance : Nat) : Nat → Nat → Nat → Option (Option DocRange)
  | 0, _, _ => none
  | fuel + 1, foundCount, searchStartIndex =>
    if foundCount < matchInstance then
      match jsIndexOf fullText textToFind searchStartIndex with
      | none => some none
      | some currentIndex =>
        if foundCount + 1 = matchInstance then
          match mapHit segments currentIndex (currentIndex + textToFind.length) with
          | some r => some (some r)
          | none =>
            searchLoop fullText segments textToFind matchInstance fuel
              foundCount (currentIndex + 1)
        else
          searchLoop fullText segments textToFind matchInstance fuel
            (foundCount + 1) (currentIndex + 1)
    else some none

/-- `findTextRange` (`googleDocsApiHelpers.ts:52-181`), network fetch
replaced by the already-fetched `body`: reconstruct the text and segment
list, sort the segments, then run the search loop from
`foundCount = 0, searchStartIndex = 0`. -/
def findTextRange (body : List StructuralElement) (textToFind : List Char)
    (matchInstance : Nat) (fuel : Nat) : Option (Option DocRange) :=
  searchLoop (docFullText body) (docSegments body) textToFind matchInstance fuel 0 0

/-- The number of `indexOf` hits of `needle` in `hay` when the cursor is
advanced one past each hit — the occurrence count seen by the search loop.
`none` means the hit stream did not terminate within `fuel` steps (which
for a non-empty needle never happens once `fuel > hay.length`). -/
def occCount (hay needle : List Char) : Nat → Nat → Option Nat
  | 0, _ => none
  | fuel + 1, s =>
    match jsIndexOf hay needle s with
    | none => some 0
    | some p => (occCount hay needle fuel (p + 1)).map (· + 1)

/-- Total length of the segment texts. -/
def sumLens (segs : List Seg) : Nat := (segs.map (·.text.length)).sum

/-- Segments sorted non-decreasingly by `startIndex`. -/
def SortedByStart (l : List Seg) : Prop :=
  l.Pairwise (fun a b => a.startIndex ≤ b.startIndex)

-- Batch submission gateway and request shapes.

/-- The subset of native request shapes the verified helpers compile to
(`docs_v1.Schema$Request` variants actually constructed in
`googleDocsApiHelpers.ts`). A field mask is kept as the list of names that
the source later joins with `","`. -/
inductive Request where
  | deleteContentRange (startIndex endIndex : Nat)
  | insertText (index : Nat) (text : List Char)
  | updateTextStyle (startIndex endIndex : Nat)
      (bold italic underline strikethrough : Option Bool)
      (fontSize : Option Nat) (weightedFontFamily : Option (List Char))
      (foregroundColor backgroundColor : Option (Nat × Nat × Nat))
      (link : Option (List Char)) (fields : List String)
  | insertInlineImage (index : Nat) (uri : List Char) (size : Option (Nat × Nat))
  | insertTable (index rows columns : Nat)
deriving DecidableEq

/-- The observable effect of `executeBatchUpdate`: either the early
`return {}` with no network call, or a single `docs.documents.batchUpdate`
network call carrying the request list. -/
inductive BatchAction where
  | noopSuccess
  | submit (requests : List Request)
deriving DecidableEq

/-- `MAX_BATCH_UPDATE_REQUESTS` (`googleDocsApiHelpers.ts:10`). -/
def MAX_BATCH_UPDATE_REQUESTS : Nat := 50

/-- `executeBatchUpdate` (`googleDocsApiHelpers.ts:13-48`) up to the network
boundary: an empty (or absent) request list returns `{}` without any call;
otherwise the whole list is submitted in one `batchUpdate` call. When the
list exceeds `MAX_BATCH_UPDATE_REQUESTS` the source only logs a
`console.warn` (line 20-22) and still submits. -/
def executeBatchUpdate (requests : List Request) : BatchAction :=
  if requests.length = 0 then .noopSuccess
  else .submit requests

/-- Number of network calls an action performs. -/
def networkCalls : BatchAction → Nat
  | .noopSuccess => 0
  | .submit _ => 1

-- Table helpers.

/-- The first body element that has a `table` and whose `startIndex` equals
the requested table start — the scan shared by `getTableStructure` and
`getTableCellRange` (`for (const element of res.data.body.content) { if
(element.table && element.startIndex === tableStartIndex) ... }`). -/
def findTableAt : List StructuralElement → Nat → Option (List TableRow)
  | [], _ => none
  | .mk s? _ _ tbl? :: rest, t =>
    match tbl? with
    | some rows => if s? = some t then some rows else findTableAt rest t
    | none => findTableAt rest t

/-- `getTableCellRange` (`googleDocsApiHelpers.ts:545-594`) after the fetch:
scans for the table at `tableStartIndex`; at the first match, a row index
`≥ tableRows.length` or a column index `≥ row.tableCells.length` throws a
`UserError` (modelled as `Except.error`); with both in bounds and the
cell's indices defined it returns `{ startIndex: cell.startIndex, endIndex:
cell.endIndex - 1 }` (the `- 1` excludes the end marker, line 583). If the
cell's indices are undefined the source's loop falls through and keeps
scanning; exhausting the body returns `null` (`Option.none`). -/
def getTableCellRange : List StructuralElement → Nat → Nat → Nat →
    Except String (Option DocRange)
  | [], _, _, _ => .ok none
  | .mk s? _ _ tbl? :: rest, t, r, c =>
    match tbl? with
    | some rows =>
      if s? = some t then
        if h : r < rows.length then
          let cells := (rows.get ⟨r, h⟩).tableCells
          if h2 : c < cells.length then
            match cells.get ⟨c, h2⟩ with
            | .mk (some cs) (some ce) _ => .ok (some ⟨cs, ce - 1⟩)
            | _ => getTableCellRange rest t r c
          else .error "Column index out of bounds"
        else .error "Row index out of bounds"
      else getTableCellRange rest t r c
    | none => getTableCellRange rest t r c

/-- `updateTableCellContent` (`googleDocsApiHelpers.ts:599-642`) up to its
final `executeBatchUpdate` call: resolves the cell range, fails if the cell
was not found, then builds the request list — a `deleteContentRange` over
`[cellRange.startIndex + 1, cellRange.endIndex)` only when that range is
non-empty, followed by an `insertText` at `cellRange.startIndex + 1` only
when the new content is non-empty. -/
def updateTableCellContent (body : List StructuralElement) (t r c : Nat)
    (newContent : List Char) : Except String (List Request) :=
  match getTableCellRange body t r c with
  | .error e => .error e
  | .ok none => .error "Could not find cell"
  | .ok (some cellRange) =>
    let contentStart := cellRange.startIndex + 1
    let contentEnd := cellRange.endIndex
    let dels := if contentStart < contentEnd
      then [Request.deleteContentRange contentStart contentEnd] else []
    let inss := if newContent ≠ []
      then [Request.insertText contentStart newContent] else []
    .ok (dels ++ inss)

/-- A table descriptor as returned by `findTables`. -/
structure TableInfo where
  startIndex : Nat
  endIndex : Nat
  rows : Nat
  columns : Nat
deriving DecidableEq

/-- `findTables` (`googleDocsApiHelpers.ts:414-457`) after the fetch: every
top-level element with a `table` and defined `startIndex`/`endIndex` is
reported, with `rows = tableRows.length` and `columns =
tableRows[0]?.tableCells?.length || 0` — the first row's cell count, `0`
when the table has no rows. -/
def findTables : List StructuralElement → List TableInfo
  | [] => []
  | .mk s? e? _ tbl? :: rest =>
    match tbl?, s?, e? with
    | some rows, some s, some e =>
      ⟨s, e, rows.length,
        match rows with
        | [] => 0
        | r :: _ => r.tableCells.length⟩ :: findTables rest
    | _, _, _ => findTables rest

/-- JS `String.prototype.trim` on a character list. -/
def trimChars (l : List Char) : List Char :=
  ((l.dropWhile Char.isWhitespace).reverse.dropWhile Char.isWhitespace).reverse

/-- The text of one cell as extracted by `getTableStructure`
(`googleDocsApiHelpers.ts:503-513`): the concatenated `textRun.content` of
the cell's direct paragraphs (no recursion into nested tables), before the
final `trim`. -/
def cellRawText (content : List StructuralElement) : List Char :=
  (content.map fun el =>
    match el with
    | .mk _ _ (some pes) _ =>
      (pes.map fun pe =>
        match pe.textRun with
        | some c => if c ≠ [] then c else []
        | none => []).flatten
    | _ => []).flatten

/-- A cell entry of `getTableStructure`'s `cells` matrix: trimmed content
and the cell's indices defaulted to `0` (`cell.startIndex || 0`). -/
structure CellInfo where
  content : List Char
  startIndex : Nat
  endIndex : Nat
deriving DecidableEq

/-- The detailed structure returned by `getTableStructure`. The element's
`endIndex` is kept optional because the source reads it with a non-null
assertion that does not actually check it. -/
structure TableStructure where
  startIndex : Nat
  endIndex : Option Nat
  rows : Nat
  columns : Nat
  cells : List (List CellInfo)
deriving DecidableEq

/-- `getTableStructure` (`googleDocsApiHelpers.ts:462-540`) after the
fetch: finds the first element with a `table` at exactly `tableStartIndex`,
and reports `rows = tableRows.length`, `columns =
tableRows[0]?.tableCells?.length || 0` and the per-cell content matrix. -/
def getTableStructure : List StructuralElement → Nat → Option TableStructure
  | [], _ => none
  | .mk s? e? _ tbl? :: rest, t =>
    match tbl? with
    | some rows =>
      if s? = some t then
        some ⟨t, e?, rows.length,
          (match rows with
           | [] => 0
           | r :: _ => r.tableCells.length),
          rows.map fun row =>
            row.tableCells.map fun cell =>
              ⟨trimChars (cellRawText cell.content),
               cell.startIndex.getD 0, cell.endIndex.getD 0⟩⟩
      else getTableStructure rest t
    | none => getTableStructure rest t

-- Text style requests (`types.ts`, `buildUpdateTextStyleRequest`).

/-- `TextStyleArgs` (`types.ts:57-77`): the sparse style intent; every
property is optional and `undefined` means "do not touch". Numeric
magnitudes are modelled as `Nat` (only their presence matters to the
request shape and mask). -/
structure TextStyleArgs where
  bold : Option Bool := none
  italic : Option Bool := none
  underline : Option Bool := none
  strikethrough : Option Bool := none
  fontSize : Option Nat := none
  fontFamily : Option (List Char) := none
  foregroundColor : Option (List Char) := none
  backgroundColor : Option (List Char) := none
  linkUrl : Option (List Char) := none
deriving DecidableEq

def isHexDigitChar (c : Char) : Bool :=
  (decide ('0' ≤ c) && decide (c ≤ '9')) ||
  (decide ('a' ≤ c) && decide (c ≤ 'f')) ||
  (decide ('A' ≤ c) && decide (c ≤ 'F'))

def hexDigitVal (c : Char) : Nat :=
  if '0' ≤ c ∧ c ≤ '9' then c.toNat - '0'.toNat
  else if 'a' ≤ c ∧ c ≤ 'f' then c.toNat - 'a'.toNat + 10
  else c.toNat - 'A'.toNat + 10

/-- `parseInt(hexClean, 16)` as used by `hexToRgbColor` (`types.ts:18`):
the maximal leading run of hex digits is parsed; no digits at all is `NaN`
(`none`). (The `parseInt` frills — leading whitespace, a sign, a `0x`
prefix — are not modelled: every caller first validates the string against
`hexColorRegex`, which excludes them, so on reachable inputs the model
matches.) -/
def parseIntHex (l : List Char) : Option Nat :=
  match l.takeWhile isHexDigitChar with
  | [] => none
  | ds => some (ds.foldl (fun a c => 16 * a + hexDigitVal c) 0)

/-- `hexToRgbColor` (`types.ts:10-26`) with the final `/255` scaling left
symbolic: the returned triple is the `(r, g, b)` byte values, each the
numerator of the `x/255` component the source emits. An empty string, a
cleaned length other than 3 or 6, or a `NaN` parse all return `null`. -/
def hexToRgbColor (hex : List Char) : Option (Nat × Nat × Nat) :=
  if hex = [] then none
  else
    let hexClean := if hex.head? = some '#' then hex.tail else hex
    let hexClean := match hexClean with
      | [a, b, c] => [a, a, b, b, c, c]
      | other => other
    if hexClean.length ≠ 6 then none
    else
      match parseIntHex hexClean with
      | none => none
      | some v => some (v / 65536 % 256, v / 256 % 256, v % 256)

/-- One conditional `fieldsToUpdate.push(nm)`: the singleton mask entry
contributed by a present optional property, nothing by an absent one. -/
def optMask {α : Type} (o : Option α) (nm : String) : List String :=
  match o with
  | some _ => [nm]
  | none => []

/-- `buildUpdateTextStyleRequest` (`googleDocsApiHelpers.ts:263-303`).
The source walks the nine optional properties in a fixed order, copying
each present one into the `textStyle` object and pushing its native mask
name (`bold`, `italic`, `underline`, `strikethrough`, `fontSize`,
`weightedFontFamily`, `foregroundColor`, `backgroundColor`, `link`) onto
`fieldsToUpdate`; an unparsable foreground (checked first) or background
color throws a `UserError`; no present property returns `null`; otherwise
the `updateTextStyle` request plus the mask list is returned. The model
parses the two colors up front and then builds the mask list by
concatenation in the source's push order — observationally the same
sequencing, since a throw discards all earlier pushes. -/
def buildUpdateTextStyleRequest (startIndex endIndex : Nat) (style : TextStyleArgs) :
    Except String (Option (Request × List String)) :=
  match style.foregroundColor, style.foregroundColor.bind hexToRgbColor with
  | some _, none => .error "Invalid foreground hex color format"
  | _, fg =>
    match style.backgroundColor, style.backgroundColor.bind hexToRgbColor with
    | some _, none => .error "Invalid background hex color format"
    | _, bg =>
      let fieldsToUpdate : List String :=
        optMask style.bold "bold" ++ optMask style.italic "italic" ++
        optMask style.underline "underline" ++
        optMask style.strikethrough "strikethrough" ++
        optMask style.fontSize "fontSize" ++
        optMask style.fontFamily "weightedFontFamily" ++
        optMask style.foregroundColor "foregroundColor" ++
        optMask style.backgroundColor "backgroundColor" ++
        optMask style.linkUrl "link"
      if fieldsToUpdate = [] then .ok none
      else .ok (some (Request.updateTextStyle startIndex endIndex
        style.bold style.italic style.underline style.strikethrough
        style.fontSize style.fontFamily fg bg style.linkUrl fieldsToUpdate,
        fieldsToUpdate))

-- Inline image insertion (`insertInlineImage`).

/-- The two components of a WHATWG-parsed URL that `insertInlineImage`
consults. `new URL(imageUrl)` is a platform builtin treated as an external
parser: the embedding receives its result, `none` standing for the parse
exception. `protocol` carries the trailing `:` and `hostname` is the
serialized host (brackets included for IPv6), as the URL standard
specifies. -/
structure ParsedUrl where
  protocol : List Char
  hostname : List Char
deriving DecidableEq

/-- `\d+`: a non-empty all-digit component. -/
def isDigitRun (l : List Char) : Bool :=
  !l.isEmpty && l.all Char.isDigit

def listStartsWith (p l : List Char) : Bool :=
  l.take p.length == p

/-- `/^localhost$/i` (`googleDocsApiHelpers.ts:928`). -/
def reLocalhost (h : List Char) : Bool :=
  (h.map Char.toLower) == "localhost".data

/-- `/^127\.\d+\.\d+\.\d+$/` (line 929). -/
def re127 (h : List Char) : Bool :=
  match h.splitOn '.' with
  | [a, b, c, d] => a == "127".data && isDigitRun b && isDigitRun c && isDigitRun d
  | _ => false

/-- `/^10\.\d+\.\d+\.\d+$/` (line 930). -/
def re10 (h : List Char) : Bool :=
  match h.splitOn '.' with
  | [a, b, c, d] => a == "10".data && isDigitRun b && isDigitRun c && isDigitRun d
  | _ => false

/-- The `(1[6-9]|2\d|3[01])` alternation of the 172.16/12 pattern. -/
def re172mid (b : List Char) : Bool :=
  match b with
  | ['1', d] => decide ('6' ≤ d) && decide (d ≤ '9')
  | ['2', d] => d.isDigit
  | ['3', d] => d == '0' || d == '1'
  | _ => false

/-- `/^172\.(1[6-9]|2\d|3[01])\.\d+\.\d+$/` (line 931). -/
def re172 (h : List Char) : Bool :=
  match h.splitOn '.' with
  | [a, b, c, d] => a == "172".data && re172mid b && isDigitRun c && isDigitRun d
  | _ => false

/-- `/^192\.168\.\d+\.\d+$/` (line 932). -/
def re192168 (h : List Char) : Bool :=
  match h.splitOn '.' with
  | [a, b, c, d] => a == "192".data && b == "168".data && isDigitRun c && isDigitRun d
  | _ => false

/-- `/^169\.254\.\d+\.\d+$/` (line 933). -/
def re169254 (h : List Char) : Bool :=
  match h.splitOn '.' with
  | [a, b, c, d] => a == "169".data && b == "254".data && isDigitRun c && isDigitRun d
  | _ => false

/-- `/^0\.0\.0\.0$/` (line 934). -/
def reZeroHost (h : List Char) : Bool :=
  h == "0.0.0.0".data

/-- `/^\[::1\]$/` (line 935). -/
def reV6Loopback (h : List Char) : Bool :=
  h == "[::1]".data

/-- `/^\[fe80:/i` (line 936). -/
def reV6LinkLocal (h : List Char) : Bool :=
  listStartsWith "[fe80:".data (h.map Char.toLower)

/-- `/^\[fc00:/i` (line 937). -/
def reV6Private (h : List Char) : Bool :=
  listStartsWith "[fc00:".data (h.map Char.toLower)

/-- The `privateRanges.some(pattern => pattern.test(hostname))` loop
(`googleDocsApiHelpers.ts:927-944`): true when any of the ten patterns
matches the hostname. -/
def isPrivateHostname (h : List Char) : Bool :=
  reLocalhost h || re127 h || re10 h || re172 h || re192168 h ||
  re169254 h || reZeroHost h || reV6Loopback h || reV6LinkLocal h || reV6Private h

/-- `insertInlineImage` (`googleDocsApiHelpers.ts:904-961`) up to its final
`executeBatchUpdate` call: an unparsable URL, a protocol other than
`http:`/`https:`, or a hostname matching a private range each throw a
`UserError` before any request object exists; otherwise exactly one
`insertInlineImage` request is built, carrying the size only when both
width and height are truthy (`width && height && {...}`). -/
def insertInlineImage (parsedUrl : Option ParsedUrl) (imageUrl : List Char)
    (index : Nat) (width height : Option Nat) : Except String (List Request) :=
  match parsedUrl with
  | none => .error "Invalid image URL format"
  | some u =>
    if u.protocol ≠ "http:".data ∧ u.protocol ≠ "https:".data then
      .error "Only HTTP and HTTPS URLs are allowed for image insertion"
    else if isPrivateHostname u.hostname then
      .error "Access to private or internal IP addresses is not allowed"
    else
      .ok [Request.insertInlineImage index imageUrl
        (match width, height with
         | some w, some h => if w ≠ 0 ∧ h ≠ 0 then some (w, h) else none
         | _, _ => none)]


-- Properties and concrete documents used in the claim theorems.

/-- The spec's segment-ordering invariant: strictly increasing (hence
non-overlapping) `absoluteStart`s. This definition follows the spec's
words; it is used to state the ordering claim against the code. -/
def StrictlyOrderedByStart (l : List Seg) : Prop :=
  l.Pairwise (fun a b => a.startIndex < b.startIndex)

/-- Scenario A document: a single paragraph whose one text run is
`"Hello world. Hello again.\n"` occupying absolute indices `[1, 27)`. -/
def scenarioABody : List StructuralElement :=
  [.mk (some 1) (some 27)
    (some [⟨some 1, some 27, some "Hello world. Hello again.\n".data⟩]) none]

/-- A one-paragraph document (`"a\n"` at `[1, 3)`) used to exercise the
mapping-failure retry: the zero-length hit of the empty search text at
offset 0 cannot be mapped (its end offset `0` maps into no segment), while
the retried hit at offset 1 can. -/
def retryBody : List StructuralElement :=
  [.mk (some 1) (some 3) (some [⟨some 1, some 3, some "a\n".data⟩]) none]

/-- A malformed fetch result: two text runs that both claim to start at
absolute index 5 — the collected segments violate strict ordering. -/
def dupBody : List StructuralElement :=
  [.mk (some 5) (some 7)
    (some [⟨some 5, some 7, some "ab".data⟩, ⟨some 5, some 7, some "cd".data⟩]) none]

/-- A table cell whose single paragraph holds `txt` at `[s + 1, e)`, the
cell itself spanning `[s, e)`. -/
def mkCell (s : Nat) (txt : List Char) (e : Nat) : TableCell :=
  .mk (some s) (some e) [.mk (some (s + 1)) (some e)
    (some [⟨some (s + 1), some e, some txt⟩]) none]

/-- Scenario B document: a 2-row × 3-column table starting at index 2,
cell (1,2) spanning `[18, 21)` with content `"X"` (the run `"X\n"` at
`[19, 21)`). -/
def tableBody : List StructuralElement :=
  [.mk (some 1) (some 2) (some [⟨some 1, some 2, some "\n".data⟩]) none,
   .mk (some 2) (some 23) none (some
     [.mk [mkCell 3 "a\n".data 6, mkCell 6 "b\n".data 9, mkCell 9 "c\n".data 12],
      .mk [mkCell 12 "d\n".data 15, mkCell 15 "e\n".data 18, mkCell 18 "X\n".data 21]])]


-- Basic facts about the collection pass.

mutual
theorem collectContent_text (l : List StructuralElement) :
    (collectContent l).1 = ((collectContent l).2.map (·.text)).flatten := by
  match l with
  | [] => simp [collectContent]
  | e :: rest =>
    have h1 := collectElement_text e
    have h2 := collectContent_text rest
    simp [collectContent, h1, h2]

theorem collectElement_text (e : StructuralElement) :
    (collectElement e).1 = ((collectElement e).2.map (·.text)).flatten := by
  match e with
  | .mk s i none none => simp [collectElement]
  | .mk s i (some pes) none =>
    have h1 := collectParaElems_text pes
    simp [collectElement, h1]
  | .mk s i none (some rows) =>
    have h2 := collectRows_text rows
    simp [collectElement, h2]
  | .mk s i (some pes) (some rows) =>
    have h1 := collectParaElems_text pes
    have h2 := collectRows_text rows
    simp [collectElement, h1, h2]

theorem collectParaElems_text (l : List ParagraphElement) :
    (collectParaElems l).1 = ((collectParaElems l).2.map (·.text)).flatten := by
  match l with
  | [] => simp [collectParaElems]
  | pe :: rest =>
    have ih := collectParaElems_text rest
    rcases pe with ⟨s?, e?, tr?⟩
    rcases tr? with _ | c <;> rcases s? with _ | s <;> rcases e? with _ | e <;>
      simp [collectParaElems, ih] <;> split <;> simp [ih]

theorem collectRows_text (l : List TableRow) :
    (collectRows l).1 = ((collectRows l).2.map (·.text)).flatten := by
  match l with
  | [] => simp [collectRows]
  | .mk cells :: rest =>
    have h1 := collectCells_text cells
    have h2 := collectRows_text rest
    simp [collectRows, h1, h2]

theorem collectCells_text (l : List TableCell) :
    (collectCells l).1 = ((collectCells l).2.map (·.text)).flatten := by
  match l with
  | [] => simp [collectCells]
  | .mk a b content :: rest =>
    have h1 := collectContent_text content
    have h2 := collectCells_text rest
    simp [collectCells, h1, h2]
end

theorem insertByStart_perm (a : Seg) (m : List Seg) :
    (insertByStart a m).Perm (a :: m) := by
  induction m with
  | nil => simp [insertByStart]
  | cons b r ihm =>
    simp only [insertByStart]
    split
    · exact (ihm.cons b).trans (List.Perm.swap a b r)
    · rfl

theorem sortSegs_perm (l : List Seg) : (sortSegs l).Perm l := by
  induction l with
  | nil => simp [sortSegs]
  | cons a rest ih => exact (insertByStart_perm a (sortSegs rest)).trans (ih.cons a)

theorem sumLens_perm {l m : List Seg} (h : l.Perm m) : sumLens l = sumLens m := by
  unfold sumLens
  exact (h.map (·.text.length)).sum_eq

theorem insertByStart_sorted (a : Seg) (m : List Seg) (h : SortedByStart m) :
    SortedByStart (insertByStart a m) := by
  induction m with
  | nil => simp [insertByStart, SortedByStart]
  | cons b r ihm =>
    rcases List.pairwise_cons.1 h with ⟨hb, hr⟩
    simp only [insertByStart]
    split
    · refine List.pairwise_cons.2 ⟨?_, ihm hr⟩
      intro x hx
      rcases List.mem_cons.1 ((insertByStart_perm a r).mem_iff.1 hx) with hxa | hxr
      · subst hxa; omega
      · exact hb x hxr
    · refine List.pairwise_cons.2 ⟨?_, h⟩
      intro x hx
      rcases List.mem_cons.1 hx with hxb | hxr
      · subst hxb; omega
      · exact le_trans (by omega) (hb x hxr)

theorem sortSegs_sorted (l : List Seg) : SortedByStart (sortSegs l) := by
  induction l with
  | nil => simp [sortSegs, SortedByStart]
  | cons a rest ih => exact insertByStart_sorted a (sortSegs rest) ih


-- Index-mapping lemmas for the segment scan.

theorem nextStartAcc_some (tS : Nat) (seg : Seg) (currentPos s0 : Nat) :
    nextStartAcc tS seg currentPos (some s0) = some s0 := by
  simp [nextStartAcc]

theorem sumLens_nil : sumLens [] = 0 := rfl

theorem sumLens_cons (a : Seg) (l : List Seg) :
    sumLens (a :: l) = a.text.length + sumLens l := by
  simp [sumLens]

theorem sumLens_take_succ (a : Seg) (l : List Seg) (k : Nat) :
    sumLens ((a :: l).take (k + 1)) = a.text.length + sumLens (l.take k) := by
  simp [sumLens, List.take_succ_cons]

/-- Once the start offset has been mapped to `s0`, the scan returns
`s0` paired with the end mapped through the segment whose reconstructed
interval contains `tE` with an inclusive right boundary. -/
theorem mapHitGo_end (tS tE s0 : Nat) :
    ∀ (segs : List Seg) (j curPos : Nat) (hj : j < segs.length),
      curPos + sumLens (segs.take j) < tE →
      tE ≤ curPos + sumLens (segs.take j) + (segs.get ⟨j, hj⟩).text.length →
      mapHitGo tS tE segs curPos (some s0) =
        some ⟨s0, (segs.get ⟨j, hj⟩).startIndex + (tE - (curPos + sumLens (segs.take j)))⟩ := by
  intro segs
  induction segs with
  | nil => intro j curPos hj; exact absurd hj (by simp)
  | cons seg rest ih =>
    intro j curPos hj h1 h2
    match j with
    | 0 =>
      simp only [List.take_zero, sumLens_nil, Nat.add_zero, List.get] at h1 h2 ⊢
      simp only [mapHitGo, nextStartAcc_some]
      rw [if_pos ⟨h1, h2⟩]
    | k + 1 =>
      rw [sumLens_take_succ] at h1 h2
      simp only [List.get_cons_succ, sumLens_take_succ] at h2 ⊢
      simp only [mapHitGo, nextStartAcc_some]
      rw [if_neg (by omega)]
      rw [ih k (curPos + seg.text.length) (by simpa using hj) (by omega) (by omega)]
      simp only [Option.some.injEq, DocRange.mk.injEq]
      exact ⟨trivial, by omega⟩

/-- Starting with no start offset mapped, the scan maps the start through
the segment containing `tS` and the end through the segment containing
`tE` (inclusive right boundary), producing exactly the
`segment.startIndex + (offset - segmentReconStart)` arithmetic of
`googleDocsApiHelpers.ts:142,147`. -/
theorem mapHitGo_full (tS tE : Nat) :
    ∀ (segs : List Seg) (i j curPos : Nat) (hi : i < segs.length) (hj : j < segs.length),
      tS < tE →
      curPos + sumLens (segs.take i) ≤ tS →
      tS < curPos + sumLens (segs.take i) + (segs.get ⟨i, hi⟩).text.length →
      curPos + sumLens (segs.take j) < tE →
      tE ≤ curPos + sumLens (segs.take j) + (segs.get ⟨j, hj⟩).text.length →
      mapHitGo tS tE segs curPos none =
        some ⟨(segs.get ⟨i, hi⟩).startIndex + (tS - (curPos + sumLens (segs.take i))),
              (segs.get ⟨j, hj⟩).startIndex + (tE - (curPos + sumLens (segs.take j)))⟩ := by
  intro segs
  induction segs with
  | nil => intro i j curPos hi; exact absurd hi (by simp)
  | cons seg rest ih =>
    intro i j curPos hi hj hST hS1 hS2 hE1 hE2
    match i with
    | 0 =>
      simp only [List.take_zero, sumLens_nil, Nat.add_zero, List.get] at hS1 hS2 ⊢
      have hacc : nextStartAcc tS seg curPos none = some (seg.startIndex + (tS - curPos)) := by
        simp [nextStartAcc, hS1, hS2]
      match j with
      | 0 =>
        simp only [List.take_zero, sumLens_nil, Nat.add_zero, List.get] at hE1 hE2 ⊢
        simp only [mapHitGo, hacc]
        rw [if_pos ⟨hE1, hE2⟩]
      | k + 1 =>
        rw [sumLens_take_succ] at hE1 hE2
        simp only [List.get_cons_succ, sumLens_take_succ] at hE2 ⊢
        simp only [mapHitGo, hacc]
        rw [if_neg (by omega)]
        rw [mapHitGo_end tS tE (seg.startIndex + (tS - curPos)) rest k
          (curPos + seg.text.length) (by simpa using hj) (by omega) (by omega)]
        simp only [Option.some.injEq, DocRange.mk.injEq]
        exact ⟨trivial, by omega⟩
    | m + 1 =>
      rw [sumLens_take_succ] at hS1 hS2
      simp only [List.get_cons_succ] at hS2 ⊢
      match j with
      | 0 =>
        simp only [List.take_zero, sumLens_nil, Nat.add_zero, List.get] at hE1 hE2
        omega
      | k + 1 =>
        rw [sumLens_take_succ] at hE1 hE2
        simp only [List.get_cons_succ, sumLens_take_succ] at hE2 ⊢
        have hacc : nextStartAcc tS seg curPos none = none := by
          unfold nextStartAcc
          rw [if_neg]
          intro hcon
          exact absurd hcon.2.2 (by omega)
        simp only [mapHitGo, hacc]
        rw [if_neg (by omega)]
        rw [ih m k (curPos + seg.text.length) (by simpa using hi) (by simpa using hj)
          hST (by omega) (by omega) (by omega) (by omega)]
        simp only [Option.some.injEq, DocRange.mk.injEq]
        exact ⟨by omega, by omega⟩

/-- The specification of a successful mapping, at the scan's entry point. -/
theorem mapHit_found (segments : List Seg) (tS tE i j : Nat)
    (hi : i < segments.length) (hj : j < segments.length)
    (hST : tS < tE)
    (h1 : sumLens (segments.take i) ≤ tS)
    (h2 : tS < sumLens (segments.take i) + (segments.get ⟨i, hi⟩).text.length)
    (h3 : sumLens (segments.take j) < tE)
    (h4 : tE ≤ sumLens (segments.take j) + (segments.get ⟨j, hj⟩).text.length) :
    mapHit segments tS tE =
      some ⟨(segments.get ⟨i, hi⟩).startIndex + (tS - sumLens (segments.take i)),
            (segments.get ⟨j, hj⟩).startIndex + (tE - sumLens (segments.take j))⟩ := by
  have := mapHitGo_full tS tE segments i j 0 hi hj hST
    (by simpa using h1) (by simpa using h2) (by simpa using h3) (by simpa using h4)
  simpa [mapHit] using this

/-- Every position strictly below the total segment length lies in the
reconstructed-offset interval of some segment. -/
theorem seg_cover (segs : List Seg) :
    ∀ (x : Nat), x < sumLens segs →
    ∃ (i : Nat) (hi : i < segs.length),
      sumLens (segs.take i) ≤ x ∧
      x < sumLens (segs.take i) + (segs.get ⟨i, hi⟩).text.length := by
  induction segs with
  | nil => intro x hx; rw [sumLens_nil] at hx; omega
  | cons seg rest ih =>
    intro x hx
    by_cases h : x < seg.text.length
    · exact ⟨0, by simp, by simp [sumLens_nil], by simpa [sumLens_nil] using h⟩
    · rw [sumLens_cons] at hx
      obtain ⟨i, hi, ha, hb⟩ := ih (x - seg.text.length) (by omega)
      refine ⟨i + 1, by simpa using hi, ?_, ?_⟩
      · rw [sumLens_take_succ]; omega
      · rw [sumLens_take_succ]; simp only [List.get_cons_succ]; omega

/-- Whenever the hit is a genuine non-empty range inside the reconstructed
text, the mapping succeeds: unmappable hits require a degenerate
(zero-length) hit. -/
theorem mapHit_isSome (segs : List Seg) (tS tE : Nat)
    (h1 : tS < tE) (h2 : tE ≤ sumLens segs) :
    (mapHit segs tS tE).isSome = true := by
  obtain ⟨i, hi, hia, hib⟩ := seg_cover segs tS (by omega)
  obtain ⟨j, hj, hja, hjb⟩ := seg_cover segs (tE - 1) (by omega)
  rw [mapHit_found segs tS tE i j hi hj h1 hia hib (by omega) (by omega)]
  rfl

-- Search-loop lemmas.

/-- When the hit stream runs out (occurrence count `m` is reached within
`fuel` steps) before `foundCount` can reach `matchInstance`, the loop
terminates with the source's `return null`: the mapping step is never even
consulted. -/
theorem searchLoop_notFound (ft : List Char) (segs : List Seg) (nd : List Char)
    (matchInstance : Nat) :
    ∀ (fuel ss fc m : Nat), occCount ft nd fuel ss = some m → fc + m < matchInstance →
    searchLoop ft segs nd matchInstance fuel fc ss = some none := by
  intro fuel
  induction fuel with
  | zero => intro ss fc m h; simp [occCount] at h
  | succ n ih =>
    intro ss fc m h hlt
    simp only [occCount] at h
    simp only [searchLoop]
    rw [if_pos (by omega)]
    cases hidx : jsIndexOf ft nd ss with
    | none => rfl
    | some p =>
      rw [hidx] at h
      dsimp only at h ⊢
      cases hoc : occCount ft nd n (p + 1) with
      | none => exact absurd (hoc ▸ h) (by simp)
      | some m' =>
        rw [hoc] at h
        simp only [Option.map_some', Option.some.injEq] at h
        rw [if_neg (by omega)]
        exact ih (p + 1) (fc + 1) m' hoc (by omega)

/-- One loop iteration at the target instance whose hit fails to map:
the loop resumes the search just past the current hit with the found
counter rolled back (`googleDocsApiHelpers.ts:155-163`). -/
theorem searchLoop_retry (ft : List Char) (segs : List Seg) (nd : List Char)
    (matchInstance fuel fc ss p : Nat)
    (hinst : fc + 1 = matchInstance)
    (hidx : jsIndexOf ft nd ss = some p)
    (hmap : mapHit segs p (p + nd.length) = none) :
    searchLoop ft segs nd matchInstance (fuel + 1) fc ss =
      searchLoop ft segs nd matchInstance fuel fc (p + 1) := by
  simp only [searchLoop]
  rw [if_pos (by omega), hidx]
  dsimp only
  rw [if_pos hinst, hmap]

-- Shared lemmas about the table-cell scan.

/-- When the table is found and the requested cell is in bounds with
defined indices, `getTableCellRange` returns the cell's
`[startIndex, endIndex - 1]` pair. -/
theorem getTableCellRange_found :
    ∀ (body : List StructuralElement) (t r c cs ce : Nat) (rows : List TableRow)
      (cc : List StructuralElement)
      (hfind : findTableAt body t = some rows) (hr : r < rows.length)
      (hc : c < ((rows.get ⟨r, hr⟩).tableCells).length),
      (rows.get ⟨r, hr⟩).tableCells.get ⟨c, hc⟩ = TableCell.mk (some cs) (some ce) cc →
      getTableCellRange body t r c = .ok (some ⟨cs, ce - 1⟩) := by
  intro body
  induction body with
  | nil => intro t r c cs ce rows cc hfind; simp [findTableAt] at hfind
  | cons el rest ih =>
    intro t r c cs ce rows cc hfind hr hc hcell
    rcases el with ⟨s?, e?, p?, tbl?⟩
    cases tbl? with
    | none =>
      simp only [findTableAt] at hfind
      simp only [getTableCellRange]
      exact ih t r c cs ce rows cc hfind hr hc hcell
    | some rws =>
      by_cases hs : s? = some t
      · simp only [findTableAt, if_pos hs] at hfind
        cases hfind
        simp only [getTableCellRange, if_pos hs]
        rw [dif_pos hr, dif_pos hc, hcell]
      · simp only [findTableAt, if_neg hs] at hfind
        simp only [getTableCellRange, if_neg hs]
        exact ih t r c cs ce rows cc hfind hr hc hcell

/-- When the table is found and the requested row or column is out of
bounds, `getTableCellRange` throws. -/
theorem getTableCellRange_oob :
    ∀ (body : List StructuralElement) (t r c colCount : Nat) (rows : List TableRow)
      (hfind : findTableAt body t = some rows)
      (hrect : ∀ row ∈ rows, row.tableCells.length = colCount)
      (hoob : r ≥ rows.length ∨ colCount ≤ c),
      ∃ msg, getTableCellRange body t r c = .error msg := by
  intro body
  induction body with
  | nil => intro t r c colCount rows hfind; simp [findTableAt] at hfind
  | cons el rest ih =>
    intro t r c colCount rows hfind hrect hoob
    rcases el with ⟨s?, e?, p?, tbl?⟩
    cases tbl? with
    | none =>
      simp only [findTableAt] at hfind
      simp only [getTableCellRange]
      exact ih t r c colCount rows hfind hrect hoob
    | some rws =>
      by_cases hs : s? = some t
      · simp only [findTableAt, if_pos hs] at hfind
        cases hfind
        simp only [getTableCellRange, if_pos hs]
        rcases hoob with hrow | hcol
        · rw [dif_neg (by omega)]
          exact ⟨_, rfl⟩
        · by_cases hr : r < rows.length
          · rw [dif_pos hr]
            have hlen := hrect (rows.get ⟨r, hr⟩) (rows.get_mem _ _)
            rw [dif_neg (by omega)]
            exact ⟨_, rfl⟩
          · rw [dif_neg hr]
            exact ⟨_, rfl⟩
      · simp only [findTableAt, if_neg hs] at hfind
        simp only [getTableCellRange, if_neg hs]
        exact ih t r c colCount rows hfind hrect hoob

-- Claim theorems.

/-- C1, counterexample: the claim says a batch of 51 requests is rejected
client-side with a `BatchTooLarge` error and zero network calls. The code
instead submits it: `executeBatchUpdate` only warns when the count exceeds
`MAX_BATCH_UPDATE_REQUESTS` and performs the `batchUpdate` network call
anyway. -/
theorem c1_counterexample :
    executeBatchUpdate (List.replicate 51 (Request.insertText 1 ['a'])) =
      BatchAction.submit (List.replicate 51 (Request.insertText 1 ['a'])) ∧
    networkCalls (executeBatchUpdate (List.replicate 51 (Request.insertText 1 ['a']))) = 1 ∧
    MAX_BATCH_UPDATE_REQUESTS < (List.replicate 51 (Request.insertText 1 ['a'])).length :=
  ⟨rfl, rfl, by simp [MAX_BATCH_UPDATE_REQUESTS]⟩

/-- C1, amended: an empty batch returns success as a no-op with zero
network calls; a non-empty batch of any size — including one exceeding the
maximum of 50 — is submitted whole in one network call (the gateway only
logs a warning for oversized batches and never rejects client-side). -/
theorem c1_theorem (requests : List Request) :
    (requests = [] →
      executeBatchUpdate requests = BatchAction.noopSuccess ∧
      networkCalls (executeBatchUpdate requests) = 0) ∧
    (requests ≠ [] →
      executeBatchUpdate requests = BatchAction.submit requests ∧
      networkCalls (executeBatchUpdate requests) = 1) := by
  constructor
  · intro h; subst h; exact ⟨rfl, rfl⟩
  · intro h
    have hlen : requests.length ≠ 0 := by simpa using h
    unfold executeBatchUpdate
    rw [if_neg hlen]
    exact ⟨rfl, rfl⟩

theorem c1_witness :
    executeBatchUpdate ([] : List Request) = BatchAction.noopSuccess ∧
    executeBatchUpdate (List.replicate 51 (Request.insertText 1 ['a'])) =
      BatchAction.submit (List.replicate 51 (Request.insertText 1 ['a'])) :=
  ⟨((c1_theorem []).1 rfl).1,
   ((c1_theorem (List.replicate 51 (Request.insertText 1 ['a']))).2 (by simp)).1⟩

/-- C2, counterexample: in the Scenario B table, cell (1,2) spans
`[18, 21)`. The claim predicts a delete of `[cell.startIndex + 1,
cell.endIndex) = [19, 21)`; the code instead deletes `[19, 20)` — the
upper bound is `cell.endIndex - 1`, because `getTableCellRange` already
subtracted the end marker — and then inserts at 19. -/
theorem c2_counterexample :
    ((findTableAt tableBody 2).bind fun rows =>
      (rows.get? 1).bind fun row =>
        (row.tableCells.get? 2).map fun cell => (cell.startIndex, cell.endIndex)) =
      some (some 18, some 21) ∧
    updateTableCellContent tableBody 2 1 2 "Y".data =
      .ok [Request.deleteContentRange 19 20, Request.insertText 19 "Y".data] ∧
    updateTableCellContent tableBody 2 1 2 "Y".data ≠
      .ok [Request.deleteContentRange 19 21, Request.insertText 19 "Y".data] := by
  refine ⟨rfl, rfl, ?_⟩
  have h : updateTableCellContent tableBody 2 1 2 "Y".data =
      .ok [Request.deleteContentRange 19 20, Request.insertText 19 "Y".data] := rfl
  rw [h]
  simp

/-- C2, amended: replacing the content of a found in-bounds cell with
indices `[cs, ce)` when the cell has non-empty existing content
(`cs + 2 < ce`, i.e. more than the trailing newline) and the new content
is non-empty compiles to exactly two requests in fixed order: first a
delete of `[cs + 1, ce - 1)` (not `[cs + 1, ce)` as claimed — the upper
bound excludes the end marker), then an insert of the new text at that
same content start `cs + 1`. -/
theorem c2_theorem (body : List StructuralElement) (t r c cs ce : Nat)
    (rows : List TableRow) (cc : List StructuralElement) (newContent : List Char)
    (hfind : findTableAt body t = some rows) (hr : r < rows.length)
    (hc : c < ((rows.get ⟨r, hr⟩).tableCells).length)
    (hcell : (rows.get ⟨r, hr⟩).tableCells.get ⟨c, hc⟩ = TableCell.mk (some cs) (some ce) cc)
    (hnonempty : cs + 2 < ce) (hnc : newContent ≠ []) :
    updateTableCellContent body t r c newContent =
      .ok [Request.deleteContentRange (cs + 1) (ce - 1),
           Request.insertText (cs + 1) newContent] := by
  have h := getTableCellRange_found body t r c cs ce rows cc hfind hr hc hcell
  unfold updateTableCellContent
  rw [h]
  simp only
  rw [if_pos (by omega), if_pos hnc]
  rfl

theorem c2_witness :
    updateTableCellContent tableBody 2 1 2 "Y".data =
      .ok [Request.deleteContentRange 19 20, Request.insertText 19 "Y".data] :=
  c2_theorem tableBody 2 1 2 18 21 _ _ "Y".data rfl (by decide) (by decide) rfl
    (by omega) (by decide)

/-- C3, counterexample: the claim asserts the segment list is strictly
increasing in `absoluteStart` and that this is checked before use, a
violation being a fetch/parse failure. On a malformed fetch with two runs
sharing `startIndex = 5`, the collected segment list is not strictly
ordered, no check exists, and the resolver silently continues — it returns
a successfully mapped range instead of failing. -/
theorem c3_counterexample :
    ¬ StrictlyOrderedByStart (docSegments dupBody) ∧
    findTextRange dupBody "c".data 1 10 = some (some ⟨5, 6⟩) := by
  constructor
  · intro h
    have : docSegments dupBody = [⟨"ab".data, 5, 7⟩, ⟨"cd".data, 5, 7⟩] := by decide
    rw [this] at h
    rcases List.pairwise_cons.1 h with ⟨hb, -⟩
    exact absurd (hb ⟨"cd".data, 5, 7⟩ (by simp)) (by simp)
  · decide

/-- C3, amended: for every fetched document the segment text lengths sum
to the reconstructed text's length, and the resolver sorts the segments
non-decreasingly by `absoluteStart` before use. Strict ordering is not
guaranteed and is never checked: a violation is not treated as a failure
(see the counterexample). -/
theorem c3_theorem (body : List StructuralElement) :
    sumLens (docSegments body) = (docFullText body).length ∧
    SortedByStart (docSegments body) := by
  constructor
  · have h1 := sumLens_perm (sortSegs_perm (collectContent body).2)
    have h2 := collectContent_text body
    unfold docSegments docFullText
    rw [h1, h2]
    unfold sumLens
    rw [List.length_flatten, List.map_map]
    rfl
  · exact sortSegs_sorted _

/-- C8: a cell lookup on a found table with `rowIndex ≥ rowCount`, or with
`columnIndex ≥ columnCount` on a rectangular table (every row holding
`colCount` cells), throws an explicit out-of-bounds `UserError`; the
indices are never clamped (no `.ok` result is possible). -/
theorem c8_theorem (body : List StructuralElement) (t r c colCount : Nat)
    (rows : List TableRow)
    (hfind : findTableAt body t = some rows)
    (hrect : ∀ row ∈ rows, row.tableCells.length = colCount)
    (hoob : r ≥ rows.length ∨ c ≥ colCount) :
    ∃ msg, getTableCellRange body t r c = .error msg :=
  getTableCellRange_oob body t r c colCount rows hfind hrect
    (by rcases hoob with h | h; exact Or.inl h; exact Or.inr (by omega))

theorem c8_witness :
    (∃ msg, getTableCellRange tableBody 2 5 0 = .error msg) ∧
    (∃ msg, getTableCellRange tableBody 2 1 3 = .error msg) :=
  ⟨c8_theorem tableBody 2 5 0 3 _ rfl (by decide) (Or.inl (by decide)),
   c8_theorem tableBody 2 1 3 3 _ rfl (by decide) (Or.inr (by decide))⟩

/-- C10: table enumeration reports `columns` as the first row's cell count
(`tableRows[0]?.tableCells?.length || 0`), `0` for a rowless table; later
rows never influence it. `findTables` distributes over concatenation, so
the two singleton equations characterise it on every body; the last
conjunct states the same first-row rule for `getTableStructure`. -/
theorem c10_theorem :
    (∀ b1 b2, findTables (b1 ++ b2) = findTables b1 ++ findTables b2) ∧
    (∀ s e p, findTables [.mk (some s) (some e) p (some [])] = [⟨s, e, 0, 0⟩]) ∧
    (∀ s e p r rest, findTables [.mk (some s) (some e) p (some (r :: rest))] =
        [⟨s, e, rest.length + 1, r.tableCells.length⟩]) ∧
    (∀ s e p r rest rest',
      (findTables [.mk (some s) (some e) p (some (r :: rest))]).map (·.columns) =
      (findTables [.mk (some s) (some e) p (some (r :: rest'))]).map (·.columns)) ∧
    (∀ body t ts, getTableStructure body t = some ts →
      ∃ rows, findTableAt body t = some rows ∧ ts.rows = rows.length ∧
        ts.columns = match rows with | [] => 0 | rr :: _ => rr.tableCells.length) := by
  refine ⟨?_, ?_, ?_, ?_, ?_⟩
  · intro b1 b2
    induction b1 with
    | nil => simp [findTables]
    | cons el rest ih =>
      rcases el with ⟨s?, e?, p?, tbl?⟩
      rcases tbl? with _ | rows <;> rcases s? with _ | s <;> rcases e? with _ | e <;>
        simp [findTables, ih]
  · intro s e p; rfl
  · intro s e p r rest; rfl
  · intro s e p r rest rest'; rfl
  · intro body t
    induction body with
    | nil => intro ts h; simp [getTableStructure] at h
    | cons el rest ih =>
      intro ts h
      rcases el with ⟨s?, e?, p?, tbl?⟩
      cases tbl? with
      | none =>
        simp only [getTableStructure] at h
        simpa [findTableAt] using ih ts h
      | some rows =>
        by_cases hs : s? = some t
        · simp only [getTableStructure, if_pos hs] at h
          cases h
          refine ⟨rows, by simp [findTableAt, hs], rfl, rfl⟩
        · simp only [getTableStructure, if_neg hs] at h
          simpa [findTableAt, hs] using ih ts h

theorem c10_witness :
    ∃ rows, findTableAt tableBody 2 = some rows ∧
      (TableStructure.rows ⟨2, some 23, 2, 3,
        [[⟨"a".data, 3, 6⟩, ⟨"b".data, 6, 9⟩, ⟨"c".data, 9, 12⟩],
         [⟨"d".data, 12, 15⟩, ⟨"e".data, 15, 18⟩, ⟨"X".data, 18, 21⟩]]⟩) = rows.length ∧
      (TableStructure.columns ⟨2, some 23, 2, 3,
        [[⟨"a".data, 3, 6⟩, ⟨"b".data, 6, 9⟩, ⟨"c".data, 9, 12⟩],
         [⟨"d".data, 12, 15⟩, ⟨"e".data, 15, 18⟩, ⟨"X".data, 18, 21⟩]]⟩) =
        match rows with | [] => 0 | rr :: _ => rr.tableCells.length :=
  c10_theorem.2.2.2.2 tableBody 2
    ⟨2, some 23, 2, 3,
      [[⟨"a".data, 3, 6⟩, ⟨"b".data, 6, 9⟩, ⟨"c".data, 9, 12⟩],
       [⟨"d".data, 12, 15⟩, ⟨"e".data, 15, 18⟩, ⟨"X".data, 18, 21⟩]]⟩ (by rfl)

/-- C4: mapping a hit `[tS, tE)` of the reconstructed text scans segments
in order with a running reconstructed-offset counter (`sumLens` of the
prefix): the start maps through the segment whose half-open offset
interval contains `tS` as `segment.startIndex + (tS - segmentReconStart)`,
the end through the segment whose interval contains `tE` with an inclusive
right boundary. In particular (second conjunct), on the Scenario A
document instance 2 of `"Hello"` resolves to `[14, 19)` in the 1-based
absolute space. -/
theorem c4_theorem :
    (∀ (segments : List Seg) (tS tE i j : Nat)
      (hi : i < segments.length) (hj : j < segments.length),
      tS < tE →
      sumLens (segments.take i) ≤ tS →
      tS < sumLens (segments.take i) + (segments.get ⟨i, hi⟩).text.length →
      sumLens (segments.take j) < tE →
      tE ≤ sumLens (segments.take j) + (segments.get ⟨j, hj⟩).text.length →
      mapHit segments tS tE =
        some ⟨(segments.get ⟨i, hi⟩).startIndex + (tS - sumLens (segments.take i)),
              (segments.get ⟨j, hj⟩).startIndex + (tE - sumLens (segments.take j))⟩) ∧
    findTextRange scenarioABody "Hello".data 2 30 = some (some ⟨14, 19⟩) := by
  constructor
  · intro segments tS tE i j hi hj h0 h1 h2 h3 h4
    exact mapHit_found segments tS tE i j hi hj h0 h1 h2 h3 h4
  · decide

theorem c4_witness :
    mapHit [⟨"Hello world. Hello again.\n".data, 1, 27⟩] 13 18 = some ⟨14, 19⟩ :=
  c4_theorem.1 [⟨"Hello world. Hello again.\n".data, 1, 27⟩] 13 18 0 0
    (by decide) (by decide) (by decide) (by decide) (by decide) (by decide) (by decide)

/-- C5: when the hit at the target instance fails to map to document
indices, the loop does not give up: it decrements the found counter and
retries the search just past the current hit (first conjunct — the loop
equation). The second conjunct exhibits this live: on `retryBody` the
zero-length hit at offset 0 is unmappable, yet the resolver returns the
range mapped from the retried hit at offset 1 instead of failing. -/
theorem c5_theorem :
    (∀ (fullText : List Char) (segments : List Seg) (textToFind : List Char)
      (matchInstance fuel foundCount searchStart currentIndex : Nat),
      foundCount + 1 = matchInstance →
      jsIndexOf fullText textToFind searchStart = some currentIndex →
      mapHit segments currentIndex (currentIndex + textToFind.length) = none →
      searchLoop fullText segments textToFind matchInstance (fuel + 1)
          foundCount searchStart =
        searchLoop fullText segments textToFind matchInstance fuel
          foundCount (currentIndex + 1)) ∧
    (mapHit (docSegments retryBody) 0 0 = none ∧
     jsIndexOf (docFullText retryBody) [] 0 = some 0 ∧
     findTextRange retryBody [] 1 10 = some (some ⟨2, 2⟩)) := by
  refine ⟨?_, by decide, by decide, by decide⟩
  intro ft segs nd mi fuel fc ss p hinst hidx hmap
  exact searchLoop_retry ft segs nd mi fuel fc ss p hinst hidx hmap

theorem c5_witness :
    searchLoop (docFullText retryBody) (docSegments retryBody) [] 1 10 0 0 =
      searchLoop (docFullText retryBody) (docSegments retryBody) [] 1 9 0 1 :=
  c5_theorem.1 (docFullText retryBody) (docSegments retryBody) [] 1 9 0 0 0
    rfl (by decide) (by decide)

/-- C6: requesting occurrence `k` when fewer than `k` occurrences exist
(the hit stream, counted left-to-right with the loop's own cursor
advancement, terminates after `m < k` hits) yields the explicit `null`
"not found" outcome — `some none`, a normal return, never a crash and
never a range. The second conjunct shows that for any genuine (non-empty)
hit inside the reconstructed text the mapping step succeeds, so for a
non-empty search text every occurrence is a mappable occurrence and the
count `m` is exactly the number of mappable occurrences. -/
theorem c6_theorem (body : List StructuralElement) (textToFind : List Char)
    (matchInstance fuel m : Nat)
    (hocc : occCount (docFullText body) textToFind fuel 0 = some m)
    (hlt : m < matchInstance) :
    findTextRange body textToFind matchInstance fuel = some none ∧
    (∀ (segs : List Seg) (tS tE : Nat), tS < tE → tE ≤ sumLens segs →
      (mapHit segs tS tE).isSome = true) := by
  refine ⟨?_, fun segs tS tE h1 h2 => mapHit_isSome segs tS tE h1 h2⟩
  exact searchLoop_notFound _ _ _ _ fuel 0 0 m hocc (by omega)

theorem c6_witness :
    findTextRange scenarioABody "Zebra".data 1 30 = some none :=
  (c6_theorem scenarioABody "Zebra".data 1 30 0 (by decide) (by decide)).1

/-- Membership in a single optional mask entry. -/
theorem mem_optMask {α : Type} (o : Option α) (nm s : String) :
    (s ∈ optMask o nm) ↔ (o.isSome ∧ s = nm) := by
  cases o <;> simp [optMask]

/-- C7: a successfully built update-style request's field mask contains a
property's native mask name exactly when that property is set in the
intent: an absent property never contributes an entry. The second conjunct
is Scenario C: an intent with only `{bold: true}` compiles to the mask
`["bold"]` — exactly `"bold"`, nothing else. -/
theorem c7_theorem :
    (∀ (s e : Nat) (style : TextStyleArgs) (req : Request) (fields : List String),
      buildUpdateTextStyleRequest s e style = .ok (some (req, fields)) →
      (("bold" ∈ fields) ↔ style.bold.isSome) ∧
      (("italic" ∈ fields) ↔ style.italic.isSome) ∧
      (("underline" ∈ fields) ↔ style.underline.isSome) ∧
      (("strikethrough" ∈ fields) ↔ style.strikethrough.isSome) ∧
      (("fontSize" ∈ fields) ↔ style.fontSize.isSome) ∧
      (("weightedFontFamily" ∈ fields) ↔ style.fontFamily.isSome) ∧
      (("foregroundColor" ∈ fields) ↔ style.foregroundColor.isSome) ∧
      (("backgroundColor" ∈ fields) ↔ style.backgroundColor.isSome) ∧
      (("link" ∈ fields) ↔ style.linkUrl.isSome)) ∧
    buildUpdateTextStyleRequest 1 5 { bold := some true } =
      .ok (some (Request.updateTextStyle 1 5 (some true) none none none none none
        none none none ["bold"], ["bold"])) := by
  constructor
  · intro s e style req fields h
    simp only [buildUpdateTextStyleRequest] at h
    split at h
    · exact absurd h (by simp)
    · split at h
      · exact absurd h (by simp)
      · split at h
        · exact absurd h (by simp)
        · rw [Except.ok.injEq, Option.some.injEq, Prod.mk.injEq] at h
          obtain ⟨-, hf⟩ := h
          subst hf
          simp [mem_optMask]
  · rfl

theorem c7_witness :
    ("bold" ∈ ["bold", "link"]) ↔ (some true : Option Bool).isSome :=
  (c7_theorem.1 1 5 { bold := some true, linkUrl := some "x".data }
    (Request.updateTextStyle 1 5 (some true) none none none none none none none
      (some "x".data) ["bold", "link"]) ["bold", "link"] (by rfl)).1

/-- C9: an image-insertion request whose URL parsed to a protocol other
than `http:`/`https:`, or to a hostname matching any of the loopback /
private / link-local patterns, throws a `UserError` — no request list is
ever produced, so nothing reaches `executeBatchUpdate` and no network call
is made. -/
theorem c9_theorem (u : ParsedUrl) (imageUrl : List Char) (index : Nat)
    (width height : Option Nat)
    (h : (u.protocol ≠ "http:".data ∧ u.protocol ≠ "https:".data) ∨
         isPrivateHostname u.hostname = true) :
    ∃ e, insertInlineImage (some u) imageUrl index width height = .error e := by
  unfold insertInlineImage
  dsimp only
  rcases h with hp | hh
  · rw [if_pos hp]
    exact ⟨_, rfl⟩
  · by_cases hp : u.protocol ≠ "http:".data ∧ u.protocol ≠ "https:".data
    · rw [if_pos hp]
      exact ⟨_, rfl⟩
    · rw [if_neg hp, if_pos hh]
      exact ⟨_, rfl⟩

theorem c9_witness :
    (∃ e, insertInlineImage (some ⟨"https:".data, "127.0.0.1".data⟩)
      "https://127.0.0.1/x.png".data 1 none none = .error e) ∧
    (∃ e, insertInlineImage (some ⟨"ftp:".data, "example.com".data⟩)
      "ftp://example.com/x.png".data 1 none none = .error e) ∧
    (∃ e, insertInlineImage (some ⟨"http:".data, "localhost".data⟩)
      "http://localhost/x.png".data 1 none none = .error e) ∧
    (∃ e, insertInlineImage (some ⟨"http:".data, "192.168.1.7".data⟩)
      "http://192.168.1.7/x.png".data 1 none none = .error e) ∧
    (∃ e, insertInlineImage (some ⟨"http:".data, "172.31.0.2".data⟩)
      "http://172.31.0.2/x.png".data 1 none none = .error e) :=
  ⟨c9_theorem _ _ 1 none none (Or.inr (by decide)),
   c9_theorem _ _ 1 none none (Or.inl (by decide)),
   c9_theorem _ _ 1 none none (Or.inr (by decide)),
   c9_theorem _ _ 1 none none (Or.inr (by decide)),
   c9_theorem _ _ 1 none none (Or.inr (by decide))⟩
